import Mathlib

/-!
Shallow embedding of `claude_hooks/ghcid_feedback.py`, the feedback bridge
between an editor hook and a background `ghcid` watch process.

Modelling conventions:
* time values (results of `time.time()` and `os.path.getmtime`) are rationals;
* a stat of a file yields `Option ℚ`: `none` when `os.path.exists` is false
  (or the file vanished before the stat), `some m` for a modification time `m`;
* Python strings are `List Char`;
* the polling loop of `wait_for_output_update` is idealised to discrete time:
  poll `k` happens at elapsed time `k / 10` (the fixed `0.1`-second sleep),
  so the `while time.time() - start_time < timeout` guard admits exactly the
  polls `k` with `k < 10 * timeout`;
* fallible reads are explicit: `ReadResult.ioError` models an `IOError` that
  the source catches.
-/

namespace GhcidFeedback

/-- Text printed by the early-exit branch of `main` (source line 132). -/
def noNewerMsg : List Char := "No Haskell files newer than last output, exiting.".data

/-- Text printed to stderr by the timeout branch of `main` (source line 146). -/
def timeoutMsg : List Char := "Timeout waiting for ghcid output".data

/-- Header printed to stderr before failing output (source line 157). -/
def ghcidHeaderMsg : List Char := "ghcid output:".data

/-- The success marker of the regular expression `^All good.*` in `main`. -/
def allGoodMarker : List Char := "All good".data

/-- A sample source-file path used in concrete evaluations. -/
def libPathText : List Char := "Lib.hs".data

/-- A sample well-formed PID-file content used in concrete evaluations. -/
def pidTextSample : List Char := "123".data

/-- A sample non-numeric PID-file content used in concrete evaluations. -/
def ghcidText : List Char := "ghcid".data

/-- Outcome of the `os.kill(pid, 0)` probe: the signal is delivered, or the
call raises an `OSError`, of which permission-denied (`EPERM`) and
no-such-process (`ESRCH`) are the two kinds that occur for signal 0. -/
inductive KillResult where
  | ok
  | permissionDenied
  | noSuchProcess
deriving DecidableEq

/-- Embedding of `is_process_running`: `os.kill(pid, 0)` runs inside a
`try`, and any `OSError` — `PermissionError` included, since it is a
subclass of `OSError` — is caught and yields `False`. -/
def is_process_running (r : KillResult) : Bool :=
  match r with
  | .ok => true
  | .permissionDenied => false
  | .noSuchProcess => false

/-- Python whitespace stripped by `str.strip()` (the ASCII cases). -/
def pyIsSpace (c : Char) : Bool :=
  c = ' ' || c = '\t' || c = '\n' || c = '\r' || c = '\x0b' || c = '\x0c'

/-- Embedding of Python `str.strip()`: drop whitespace from both ends. -/
def pyStrip (s : List Char) : List Char :=
  ((s.dropWhile pyIsSpace).reverse.dropWhile pyIsSpace).reverse

/-- Value of a run of ASCII digits read in base 10. -/
def digitsToNat (s : List Char) : ℕ :=
  s.foldl (fun a c => 10 * a + (c.toNat - Char.toNat '0')) 0

/-- Embedding of Python `int(text)` on a string: after stripping
whitespace, an optional sign followed by a nonempty run of ASCII digits
parses; anything else raises `ValueError`, modelled as `none`
(underscore digit separators are not modelled). -/
def pyIntParse (s : List Char) : Option ℤ :=
  match pyStrip s with
  | [] => none
  | '+' :: rest =>
      if rest ≠ [] ∧ rest.all Char.isDigit then some (digitsToNat rest : ℤ) else none
  | '-' :: rest =>
      if rest ≠ [] ∧ rest.all Char.isDigit then some (-(digitsToNat rest : ℤ)) else none
  | l => if l.all Char.isDigit then some (digitsToNat l : ℤ) else none

/-- What `start_ghcid_if_needed` observes when it looks at the PID file:
the file is absent, or opening/reading it raises `IOError`, or it reads
some text. -/
inductive PidFileRead where
  | absent
  | unreadable
  | content (text : List Char)

/-- Environment of one `start_ghcid_if_needed` call: the PID-file
observation, the outcome of `os.kill(pid, 0)` for each pid, and the pid
the new subprocess would get if spawned. -/
structure RegistryEnv where
  pidFile : PidFileRead
  kill : ℤ → KillResult
  newPid : ℤ

/-- Result of `start_ghcid_if_needed`: either it returned early because a
live process was found, or it spawned `ghcid` and persisted the new pid. -/
inductive RegistryResult where
  | alreadyRunning
  | started (persistedPid : ℤ)
deriving DecidableEq

/-- Embedding of `start_ghcid_if_needed`: if the PID file exists, try to
parse its stripped content as an integer and probe that pid; a live pid
returns early.  A `ValueError` (unparsable content) or `IOError`
(unreadable file) is caught by `except (ValueError, IOError): pass`, so
control falls through to the spawn, which persists the fresh pid. -/
def start_ghcid_if_needed (e : RegistryEnv) : RegistryResult :=
  match e.pidFile with
  | .content text =>
      match pyIntParse text with
      | some pid =>
          if is_process_running (e.kill pid) then .alreadyRunning
          else .started e.newPid
      | none => .started e.newPid
  | .unreadable => .started e.newPid
  | .absent => .started e.newPid

/-- Advance test of the polling loop body of `wait_for_output_update`:
with no initial modification time (`initial_mtime is None`) any observed
time counts; otherwise the observed time must strictly exceed the initial
one (`current_mtime > initial_mtime`). -/
def advanceObserved (initial_mtime : Option ℚ) (current_mtime : ℚ) : Bool :=
  match initial_mtime with
  | none => true
  | some m => decide (m < current_mtime)

/-- The polling loop of `wait_for_output_update`, instrumented to return
the index of the poll at which the source loop returns `True` (`none`
when the `while` guard expires first).  `obs k` is the stat of the output
file at poll `k`; `fuel` is the number of polls the guard still admits. -/
def wait_poll (obs : ℕ → Option ℚ) (initial_mtime : Option ℚ) : ℕ → ℕ → Option ℕ
  | _, 0 => none
  | k, fuel + 1 =>
      match obs k with
      | some current_mtime =>
          if advanceObserved initial_mtime current_mtime then some k
          else wait_poll obs initial_mtime (k + 1) fuel
      | none => wait_poll obs initial_mtime (k + 1) fuel

/-- The polling loop of `wait_for_output_update` exactly as in the
source: `True` when a poll observes an advance before the guard expires,
`False` otherwise. -/
def wait_loop (obs : ℕ → Option ℚ) (initial_mtime : Option ℚ) : ℕ → ℕ → Bool
  | _, 0 => false
  | k, fuel + 1 =>
      match obs k with
      | some current_mtime =>
          if advanceObserved initial_mtime current_mtime then true
          else wait_loop obs initial_mtime (k + 1) fuel
      | none => wait_loop obs initial_mtime (k + 1) fuel

/-- Embedding of `wait_for_output_update`: `initial_mtime` is the stat
taken before the loop; in the discrete-time idealisation the guard
`time.time() - start_time < timeout` admits the polls `k < 10 * timeout`
(one poll each `0.1` seconds). -/
def wait_for_output_update (obs : ℕ → Option ℚ) (initial_mtime : Option ℚ)
    (timeout : ℕ) : Bool :=
  wait_loop obs initial_mtime 0 (10 * timeout)

/-- Index of the poll at which `wait_for_output_update` returns `True`
(`none` when it times out and returns `False`). -/
def wait_return_poll (obs : ℕ → Option ℚ) (initial_mtime : Option ℚ)
    (timeout : ℕ) : Option ℕ :=
  wait_poll obs initial_mtime 0 (10 * timeout)

/-- Elapsed time at which `wait_for_output_update` returns: poll `k`
happens at elapsed time `k / 10`, and the guard expires at elapsed time
`timeout` exactly. -/
def wait_return_time (obs : ℕ → Option ℚ) (initial_mtime : Option ℚ)
    (timeout : ℕ) : ℚ :=
  match wait_return_poll obs initial_mtime timeout with
  | some k => (k : ℚ) / 10
  | none => (timeout : ℚ)

/-- Whether poll `k` observes an advance: the file exists at poll `k` and
its observed modification time passes `advanceObserved`. -/
def pollHit (obs : ℕ → Option ℚ) (initial_mtime : Option ℚ) (k : ℕ) : Bool :=
  match obs k with
  | some current_mtime => advanceObserved initial_mtime current_mtime
  | none => false

/-- What the final `read_output_file` call observes: the raw file content,
or an `IOError` (caught in the source, yielding the empty string). -/
inductive ReadResult where
  | ok (raw : List Char)
  | ioError
deriving DecidableEq

/-- Embedding of `read_output_file`: return `f.read().strip()`, or the
empty string when opening or reading raises `IOError`. -/
def read_output_file (r : ReadResult) : List Char :=
  match r with
  | .ok raw => pyStrip raw
  | .ioError => []

/-- A Haskell file as `main` sees it: the path collected by
`find_haskell_files`, and the stat taken in the newer-files loop
(`none` when `os.path.exists` is false by the time of the stat). -/
structure HaskellFile where
  path : List Char
  mtime : Option ℚ
deriving DecidableEq

/-- The reference time `output_file_mtime` of `main`: initialised to `0`
and overwritten with the report's modification time when the report
exists (source lines 107–111). -/
def output_file_mtime_of (stat : Option ℚ) : ℚ :=
  match stat with
  | some m => m
  | none => 0

/-- The freshness flag of `main`: the report exists and was modified less
than 3 seconds before the script started (source lines 108–114). -/
def output_file_fresh (script_start_time : ℚ) (stat : Option ℚ) : Bool :=
  match stat with
  | some m => decide (script_start_time - m < 3)
  | none => false

/-- The `newer_haskell_files` list of `main`: the discovered files that
still exist and whose modification time strictly exceeds the reference
time (source lines 116–121). -/
def newer_haskell_files (files : List HaskellFile) (output_mtime : ℚ) :
    List HaskellFile :=
  files.filter fun f =>
    match f.mtime with
    | some m => decide (output_mtime < m)
    | none => false

/-- The observable verdict of one run of `main`: the no-changes early
exit, the wait-loop timeout exit, or the classification of the report
content read at the end. -/
inductive Outcome where
  | earlyExit
  | timeoutExit
  | success (content : List Char)
  | failure (content : List Char)
deriving DecidableEq

/-- Exit code of each outcome: `sys.exit(0)` on the early exit, the
timeout branch and the success branch, `sys.exit(2)` on failure. -/
def exitCodeOf (o : Outcome) : ℕ :=
  match o with
  | .earlyExit => 0
  | .timeoutExit => 0
  | .success _ => 0
  | .failure _ => 2

/-- Lines the terminal branch of `main` prints to standard output. -/
def stdoutOf (o : Outcome) : List (List Char) :=
  match o with
  | .earlyExit => [noNewerMsg]
  | .timeoutExit => []
  | .success content => [content]
  | .failure _ => []

/-- Lines the terminal branch of `main` prints to standard error. -/
def stderrOf (o : Outcome) : List (List Char) :=
  match o with
  | .earlyExit => []
  | .timeoutExit => [timeoutMsg]
  | .success _ => []
  | .failure content => [ghcidHeaderMsg, content]

/-- Embedding of `re.match` against `^All good.*`: the match succeeds
exactly when the text starts with the literal marker (`.*` matches the
empty remainder, and a match anchored at the start needs nothing more). -/
def allGoodMatch (text : List Char) : Bool :=
  List.isPrefixOf allGoodMarker text

/-- The classification tail of `main` (source lines 153–159). -/
def classifyOutcome (output : List Char) : Outcome :=
  if allGoodMatch output then .success output else .failure output

/-- The first line of a text: everything before the first newline. -/
def firstLine (text : List Char) : List Char :=
  text.takeWhile fun c => c != '\n'

/-- Environment of one run of `main`: the start-of-run clock, the two
stats of the report taken by `main` (lines 110–111 and 138–139), the
discovered Haskell files with their stats, the stat taken at the start of
`wait_for_output_update`, the poll observations of its loop, and the
final read of the report. -/
structure Env where
  script_start_time : ℚ
  outputStat1 : Option ℚ
  haskell_files : List HaskellFile
  outputStat2 : Option ℚ
  waitInit : Option ℚ
  waitObs : ℕ → Option ℚ
  readRaw : ReadResult

/-- The `file_updated` flag of `main`: the report exists at the second
stat and its modification time is at or after the script start
(source lines 136–141). -/
def mainFileUpdated (e : Env) : Bool :=
  match e.outputStat2 with
  | some m => decide (e.script_start_time ≤ m)
  | none => false

/-- Embedding of the decision logic of `main` (source lines 97–159):
fresh report → read and classify; otherwise an empty newer-files list
exits 0; otherwise read and classify once the report is seen updated
(already updated at the second stat, or the wait loop observes an
advance), and exit 0 with a timeout diagnostic when the wait gives up. -/
def mainRun (e : Env) : Outcome :=
  let output_file_mtime := output_file_mtime_of e.outputStat1
  let fresh := output_file_fresh e.script_start_time e.outputStat1
  let newer := newer_haskell_files e.haskell_files output_file_mtime
  if fresh then
    classifyOutcome (read_output_file e.readRaw)
  else if newer.isEmpty then
    .earlyExit
  else if mainFileUpdated e then
    classifyOutcome (read_output_file e.readRaw)
  else if wait_for_output_update e.waitObs e.waitInit 20 then
    classifyOutcome (read_output_file e.readRaw)
  else
    .timeoutExit

/-- The boolean loop agrees with the instrumented loop: the source loop
returns `True` exactly when some poll returns an index. -/
theorem wait_loop_eq_isSome (obs : ℕ → Option ℚ) (initial_mtime : Option ℚ) :
    ∀ fuel k, wait_loop obs initial_mtime k fuel
      = (wait_poll obs initial_mtime k fuel).isSome := by
  intro fuel
  induction fuel with
  | zero => intro k; rfl
  | succ n ih =>
      intro k
      cases hobs : obs k with
      | none => simp [wait_loop, wait_poll, hobs, ih (k + 1)]
      | some cur =>
          by_cases ha : advanceObserved initial_mtime cur = true
          · simp [wait_loop, wait_poll, hobs, ha]
          · simp [wait_loop, wait_poll, hobs, ha, ih (k + 1)]

/-- When the instrumented loop returns an index, that index is the first
poll in the window that observed an advance. -/
theorem wait_poll_some_spec (obs : ℕ → Option ℚ) (initial_mtime : Option ℚ) :
    ∀ fuel k j, wait_poll obs initial_mtime k fuel = some j →
      pollHit obs initial_mtime j = true ∧ k ≤ j ∧ j < k + fuel ∧
        ∀ l, k ≤ l → l < j → pollHit obs initial_mtime l = false := by
  intro fuel
  induction fuel with
  | zero => intro k j h; simp [wait_poll] at h
  | succ n ih =>
      intro k j h
      cases hobs : obs k with
      | none =>
          rw [wait_poll, hobs] at h
          obtain ⟨h1, h2, h3, h4⟩ := ih (k + 1) j h
          refine ⟨h1, by omega, by omega, ?_⟩
          intro l hl1 hl2
          rcases eq_or_lt_of_le hl1 with he | hlt
          · rw [← he]; simp [pollHit, hobs]
          · exact h4 l (by omega) hl2
      | some cur =>
          rw [wait_poll, hobs] at h
          dsimp only at h
          by_cases ha : advanceObserved initial_mtime cur = true
          · rw [if_pos ha] at h
            obtain rfl : k = j := by simpa using h
            refine ⟨by simp [pollHit, hobs, ha], le_rfl, by omega, ?_⟩
            intro l hl1 hl2; omega
          · rw [if_neg ha] at h
            obtain ⟨h1, h2, h3, h4⟩ := ih (k + 1) j h
            refine ⟨h1, by omega, by omega, ?_⟩
            intro l hl1 hl2
            rcases eq_or_lt_of_le hl1 with he | hlt
            · rw [← he]
              simp only [pollHit, hobs]
              exact Bool.not_eq_true _ ▸ (by simpa using ha)
            · exact h4 l (by omega) hl2

/-- Conversely, the first poll in the window that observes an advance is
the index the instrumented loop returns. -/
theorem wait_poll_eq_some (obs : ℕ → Option ℚ) (initial_mtime : Option ℚ) :
    ∀ fuel k j, pollHit obs initial_mtime j = true → k ≤ j → j < k + fuel →
      (∀ l, k ≤ l → l < j → pollHit obs initial_mtime l = false) →
      wait_poll obs initial_mtime k fuel = some j := by
  intro fuel
  induction fuel with
  | zero => intro k j _ h2 h3 _; omega
  | succ n ih =>
      intro k j hj hkj hjb hmin
      by_cases hkeq : j = k
      · subst hkeq
        cases hobs : obs j with
        | none => simp [pollHit, hobs] at hj
        | some cur =>
            have ha : advanceObserved initial_mtime cur = true := by
              simpa [pollHit, hobs] using hj
            rw [wait_poll, hobs]
            dsimp only
            rw [if_pos ha]
      · have hklt : k < j := lt_of_le_of_ne hkj (Ne.symm hkeq)
        have hrec : wait_poll obs initial_mtime (k + 1) n = some j := by
          apply ih (k + 1) j hj (by omega) (by omega)
          intro l hl1 hl2; exact hmin l (by omega) hl2
        have hk : pollHit obs initial_mtime k = false := hmin k le_rfl hklt
        cases hobs : obs k with
        | none => rw [wait_poll, hobs]; exact hrec
        | some cur =>
            have ha : ¬ advanceObserved initial_mtime cur = true := by
              simp only [pollHit, hobs] at hk
              simp [hk]
            rw [wait_poll, hobs]
            dsimp only
            rw [if_neg ha]
            exact hrec

/-- If some poll in the window observes an advance, the loop succeeds. -/
theorem wait_poll_isSome_of_hit (obs : ℕ → Option ℚ) (initial_mtime : Option ℚ) :
    ∀ fuel k j, k ≤ j → j < k + fuel → pollHit obs initial_mtime j = true →
      (wait_poll obs initial_mtime k fuel).isSome = true := by
  intro fuel
  induction fuel with
  | zero => intro k j h1 h2 _; omega
  | succ n ih =>
      intro k j h1 h2 hj
      cases hobs : obs k with
      | none =>
          have hne : j ≠ k := by
            intro he; rw [he] at hj; simp [pollHit, hobs] at hj
          rw [wait_poll, hobs]
          exact ih (k + 1) j (by omega) (by omega) hj
      | some cur =>
          by_cases ha : advanceObserved initial_mtime cur = true
          · rw [wait_poll, hobs]
            dsimp only
            rw [if_pos ha]
            rfl
          · have hne : j ≠ k := by
              intro he; rw [he] at hj
              simp only [pollHit, hobs] at hj
              exact ha hj
            rw [wait_poll, hobs]
            dsimp only
            rw [if_neg ha]
            exact ih (k + 1) j (by omega) (by omega) hj

/-- C3: the freshness gate holds exactly when the report exists and the
invocation start time minus the report's modification time is strictly
below the 3-second window; a gap of 3 or more, or a missing report, is
not fresh. -/
theorem output_file_fresh_iff (script_start_time : ℚ) (stat : Option ℚ) :
    output_file_fresh script_start_time stat = true ↔
      ∃ m, stat = some m ∧ script_start_time - m < 3 := by
  cases stat with
  | none => simp [output_file_fresh]
  | some m => simp [output_file_fresh]

/-- Matching a newline-free pattern at the start of the first line is the
same as matching it at the start of the whole text. -/
theorem isPrefixOf_takeWhile_newline :
    ∀ p s : List Char, '\n' ∉ p →
      List.isPrefixOf p (s.takeWhile fun c => c != '\n')
        = List.isPrefixOf p s := by
  intro p
  induction p with
  | nil => intro s _; simp [List.isPrefixOf]
  | cons a p ih =>
      intro s hp
      have ha : a ≠ '\n' := fun h => hp (h ▸ List.mem_cons_self a p)
      have hp' : '\n' ∉ p := fun h => hp (List.mem_cons_of_mem a h)
      cases s with
      | nil => simp
      | cons b s =>
          by_cases hb : b = '\n'
          · subst hb
            have ht : (('\n' :: s).takeWhile fun c => c != '\n') = [] := by
              simp [List.takeWhile]
            rw [ht]
            simp [List.isPrefixOf, ha]
          · have hbne : (b != '\n') = true := by
              simp [bne_iff_ne, hb]
            have ht : ((b :: s).takeWhile fun c => c != '\n')
                = b :: (s.takeWhile fun c => c != '\n') := by
              simp [List.takeWhile, hbne]
            rw [ht]
            simp [List.isPrefixOf, ih s hp']

/-- C6: the classification tail of `main` succeeds exactly when the first
line of the classified report text starts with the literal marker
`All good`; success gives exit code 0 with the content on standard
output, anything else gives exit code 2 with the content on standard
error after a header line. -/
theorem classification_by_first_line (output : List Char) :
    classifyOutcome output =
      (if allGoodMatch (firstLine output) then Outcome.success output
       else Outcome.failure output)
    ∧ exitCodeOf (classifyOutcome output) =
        (if allGoodMatch (firstLine output) then 0 else 2)
    ∧ stdoutOf (classifyOutcome output) =
        (if allGoodMatch (firstLine output) then [output] else [])
    ∧ stderrOf (classifyOutcome output) =
        (if allGoodMatch (firstLine output) then [] else [ghcidHeaderMsg, output]) := by
  have hnl : '\n' ∉ allGoodMarker := by decide
  have key : allGoodMatch (firstLine output) = allGoodMatch output := by
    rw [allGoodMatch, allGoodMatch, firstLine]
    exact isPrefixOf_takeWhile_newline allGoodMarker output hnl
  rw [key]
  by_cases h : allGoodMatch output = true
  · simp [classifyOutcome, h, exitCodeOf, stdoutOf, stderrOf]
  · simp only [Bool.not_eq_true] at h
    simp [classifyOutcome, h, exitCodeOf, stdoutOf, stderrOf]

/-- C4: `wait_for_output_update` returns true exactly when some poll
inside the timeout window observes an advance past the initially
observed modification time; the poll at which it returns is the first
such poll; and with no initial modification time (the report absent at
loop start) any poll that sees the file existing makes it return true.
With no such poll in the window it returns false. -/
theorem wait_advance_spec (obs : ℕ → Option ℚ) (initial_mtime : Option ℚ)
    (timeout : ℕ) :
    (wait_for_output_update obs initial_mtime timeout = true ↔
      ∃ k, k < 10 * timeout ∧ pollHit obs initial_mtime k = true)
    ∧ (∀ k, k < 10 * timeout → pollHit obs initial_mtime k = true →
        (∀ j, j < k → pollHit obs initial_mtime j = false) →
        wait_return_poll obs initial_mtime timeout = some k)
    ∧ (initial_mtime = none → ∀ k, k < 10 * timeout → (obs k).isSome = true →
        wait_for_output_update obs initial_mtime timeout = true) := by
  refine ⟨⟨?_, ?_⟩, ?_, ?_⟩
  · intro h
    rw [wait_for_output_update, wait_loop_eq_isSome] at h
    rw [Option.isSome_iff_exists] at h
    obtain ⟨j, hj⟩ := h
    obtain ⟨h1, _, h3, _⟩ :=
      wait_poll_some_spec obs initial_mtime (10 * timeout) 0 j hj
    exact ⟨j, by omega, h1⟩
  · rintro ⟨k, hk, hhit⟩
    rw [wait_for_output_update, wait_loop_eq_isSome]
    exact wait_poll_isSome_of_hit obs initial_mtime (10 * timeout) 0 k
      (by omega) (by omega) hhit
  · intro k hk hhit hmin
    rw [wait_return_poll]
    exact wait_poll_eq_some obs initial_mtime (10 * timeout) 0 k hhit
      (by omega) (by omega) (fun l _ hl => hmin l hl)
  · intro hin k hk hsome
    have hhit : pollHit obs initial_mtime k = true := by
      rcases Option.isSome_iff_exists.mp hsome with ⟨c, hc⟩
      rw [hin]
      simp [pollHit, hc, advanceObserved]
    rw [wait_for_output_update, wait_loop_eq_isSome]
    exact wait_poll_isSome_of_hit obs initial_mtime (10 * timeout) 0 k
      (by omega) (by omega) hhit

/-- Witness for C4: with no report at loop start and the report observed
to exist at poll 3 of a 20-second wait, the loop returns true at exactly
poll 3. -/
theorem wait_advance_spec_check :
    wait_return_poll (fun k => if k = 3 then some 1 else none) none 20 = some 3
    ∧ wait_for_output_update (fun k => if k = 3 then some 1 else none) none 20
        = true := by
  constructor
  · exact (wait_advance_spec (fun k => if k = 3 then some 1 else none) none 20).2.1
      3 (by decide) (by decide) (by decide)
  · exact (wait_advance_spec (fun k => if k = 3 then some 1 else none) none 20).2.2
      rfl 3 (by decide) (by decide)

/-- C5: the wait loop never runs past its timeout bound — its return
time is at most `timeout` — and when the report is never updated (no
poll ever observes an advance) it returns false, within one polling
interval past the timeout. -/
theorem wait_bounded_blocking (obs : ℕ → Option ℚ) (initial_mtime : Option ℚ)
    (timeout : ℕ) :
    wait_return_time obs initial_mtime timeout ≤ (timeout : ℚ)
    ∧ ((∀ k, pollHit obs initial_mtime k = false) →
        wait_for_output_update obs initial_mtime timeout = false
        ∧ wait_return_time obs initial_mtime timeout ≤ (timeout : ℚ) + 1 / 10) := by
  have hbound : wait_return_time obs initial_mtime timeout ≤ (timeout : ℚ) := by
    cases h : wait_return_poll obs initial_mtime timeout with
    | none => rw [wait_return_time, h]
    | some k =>
        obtain ⟨_, _, h3, _⟩ :=
          wait_poll_some_spec obs initial_mtime (10 * timeout) 0 k h
        rw [wait_return_time, h]
        dsimp only
        rw [div_le_iff₀ (by norm_num : (0 : ℚ) < 10)]
        have hk : (k : ℚ) < 10 * (timeout : ℚ) := by
          exact_mod_cast (by omega : k < 10 * timeout)
        linarith
  refine ⟨hbound, fun hall => ⟨?_, ?_⟩⟩
  · rw [wait_for_output_update, wait_loop_eq_isSome]
    cases h : wait_poll obs initial_mtime 0 (10 * timeout) with
    | none => rfl
    | some k =>
        obtain ⟨h1, _, _, _⟩ :=
          wait_poll_some_spec obs initial_mtime (10 * timeout) 0 k h
        rw [hall k] at h1
        exact (Bool.false_ne_true h1).elim
  · calc wait_return_time obs initial_mtime timeout ≤ (timeout : ℚ) := hbound
      _ ≤ (timeout : ℚ) + 1 / 10 := by norm_num

/-- Witness for C5: with a report that is never updated, a 20-second
wait returns false and its return time is within the claimed bound. -/
theorem wait_bounded_blocking_check :
    wait_for_output_update (fun _ => none) none 20 = false
    ∧ wait_return_time (fun _ => none) none 20 ≤ (20 : ℚ) + 1 / 10 := by
  have h := (wait_bounded_blocking (fun _ => none) none 20).2 (fun k => rfl)
  exact ⟨h.1, by exact_mod_cast h.2⟩

/-- C1: a fresh report sends `main` straight to reading and classifying
the report — the outcome is the classification of the final read, with
no condition on the discovered files, the second stat, or the wait loop;
a non-fresh report with an empty newer-files list exits immediately with
code 0 and the no-changes diagnostic on standard output, for every
possible read result and wait behaviour. -/
theorem freshness_controls_main_flow (e : Env) :
    (output_file_fresh e.script_start_time e.outputStat1 = true →
      mainRun e = classifyOutcome (read_output_file e.readRaw))
    ∧ (output_file_fresh e.script_start_time e.outputStat1 = false →
        newer_haskell_files e.haskell_files (output_file_mtime_of e.outputStat1) = [] →
        mainRun e = Outcome.earlyExit ∧ exitCodeOf (mainRun e) = 0 ∧
          stdoutOf (mainRun e) = [noNewerMsg]) := by
  constructor
  · intro h
    simp [mainRun, h]
  · intro h hn
    have hmain : mainRun e = Outcome.earlyExit := by
      simp [mainRun, h, hn]
    exact ⟨hmain, by rw [hmain]; rfl, by rw [hmain]; rfl⟩

/-- Witness for C1: a run with a fresh report (invocation at time 10,
report written at time 8) classifies the report it reads even though a
newer file list would be empty; a run with a stale report (invocation at
time 100) and no file newer than the report exits early. -/
theorem freshness_controls_main_flow_check :
    mainRun ⟨10, some 8, [], none, none, fun _ => none,
        ReadResult.ok allGoodMarker⟩
      = classifyOutcome (read_output_file (ReadResult.ok allGoodMarker))
    ∧ mainRun ⟨100, some 8, [HaskellFile.mk libPathText (some 5)], none, none,
        fun _ => none, ReadResult.ioError⟩ = Outcome.earlyExit := by
  constructor
  · exact (freshness_controls_main_flow ⟨10, some 8, [], none, none,
      fun _ => none, ReadResult.ok allGoodMarker⟩).1
      (by norm_num [output_file_fresh])
  · exact ((freshness_controls_main_flow ⟨100, some 8,
      [HaskellFile.mk libPathText (some 5)], none, none, fun _ => none,
      ReadResult.ioError⟩).2 (by norm_num [output_file_fresh]) (by decide)).1

/-- C7: when the report is not fresh, some watched file is newer, the
report was not already updated at the second stat, and the wait loop
gives up, `main` prints the timeout diagnostic to standard error and
exits with code 0. -/
theorem timeout_soft_exit (e : Env)
    (hfresh : output_file_fresh e.script_start_time e.outputStat1 = false)
    (hnew : newer_haskell_files e.haskell_files (output_file_mtime_of e.outputStat1) ≠ [])
    (hupd : mainFileUpdated e = false)
    (hwait : wait_for_output_update e.waitObs e.waitInit 20 = false) :
    mainRun e = Outcome.timeoutExit ∧ exitCodeOf (mainRun e) = 0 ∧
      stderrOf (mainRun e) = [timeoutMsg] := by
  have hne : (newer_haskell_files e.haskell_files
      (output_file_mtime_of e.outputStat1)).isEmpty = false := by
    cases hx : newer_haskell_files e.haskell_files (output_file_mtime_of e.outputStat1) with
    | nil => exact absurd hx hnew
    | cons a t => rfl
  have hmain : mainRun e = Outcome.timeoutExit := by
    simp [mainRun, hfresh, hne, hupd, hwait]
  exact ⟨hmain, by rw [hmain]; rfl, by rw [hmain]; rfl⟩

/-- Witness for C7: stale report (none exists), one newer file, second
stat still sees no report, and a wait whose every poll sees no report:
the run ends in the timeout exit. -/
theorem timeout_soft_exit_check :
    mainRun ⟨100, none, [HaskellFile.mk libPathText (some 5)], none, none,
      fun _ => none, ReadResult.ioError⟩ = Outcome.timeoutExit := by
  exact (timeout_soft_exit ⟨100, none, [HaskellFile.mk libPathText (some 5)],
    none, none, fun _ => none, ReadResult.ioError⟩
    rfl (by decide) rfl rfl).1

/-- C10: an `IOError` at the final read yields the empty string instead
of raising, so a run that reaches the read — here after the wait loop
succeeds — takes the failure branch: exit code 2 with the empty content
printed to standard error under the header line. -/
theorem read_error_failure_branch (e : Env)
    (hread : e.readRaw = ReadResult.ioError)
    (hfresh : output_file_fresh e.script_start_time e.outputStat1 = false)
    (hnew : newer_haskell_files e.haskell_files (output_file_mtime_of e.outputStat1) ≠ [])
    (hupd : mainFileUpdated e = false)
    (hwait : wait_for_output_update e.waitObs e.waitInit 20 = true) :
    read_output_file ReadResult.ioError = []
    ∧ mainRun e = Outcome.failure []
    ∧ exitCodeOf (mainRun e) = 2
    ∧ stderrOf (mainRun e) = [ghcidHeaderMsg, []] := by
  have hne : (newer_haskell_files e.haskell_files
      (output_file_mtime_of e.outputStat1)).isEmpty = false := by
    cases hx : newer_haskell_files e.haskell_files (output_file_mtime_of e.outputStat1) with
    | nil => exact absurd hx hnew
    | cons a t => rfl
  have hclass : classifyOutcome (read_output_file ReadResult.ioError)
      = Outcome.failure [] := by decide
  have hmain : mainRun e = Outcome.failure [] := by
    simp [mainRun, hfresh, hne, hupd, hwait, hread, hclass]
  exact ⟨rfl, hmain, by rw [hmain]; rfl, by rw [hmain]; rfl⟩

/-- Witness for C10: stale absent report, one newer file, and a wait
whose first poll sees the report appear; the final read then fails with
an `IOError` and the run exits 2 with empty content. -/
theorem read_error_failure_branch_check :
    mainRun ⟨100, none, [HaskellFile.mk libPathText (some 5)], none, none,
      fun _ => some 1, ReadResult.ioError⟩ = Outcome.failure [] := by
  exact ((read_error_failure_branch ⟨100, none,
    [HaskellFile.mk libPathText (some 5)], none, none, fun _ => some 1,
    ReadResult.ioError⟩ rfl rfl (by decide) rfl rfl).2).1

/-- C2 fails as stated: with no report the reference time is the epoch
sentinel 0, and a discovered file whose modification time is exactly 0
does not strictly exceed it, so it is not reported as changed — against
the claim that in the no-report case every discovered file counts. -/
theorem no_report_change_detection_cex :
    HaskellFile.mk libPathText (some 0) ∉
      newer_haskell_files [HaskellFile.mk libPathText (some 0)]
        (output_file_mtime_of none) := by
  decide

/-- C2 (amended): a file is reported as changed exactly when it was
discovered, still exists at its stat, and its modification time strictly
exceeds the reference time (the report's modification time, or the epoch
sentinel 0 with no report); in the no-report case every discovered,
still-existing file with strictly positive modification time counts as
changed. -/
theorem change_detection_filter_spec (files : List HaskellFile)
    (stat : Option ℚ) (f : HaskellFile) :
    (f ∈ newer_haskell_files files (output_file_mtime_of stat) ↔
      f ∈ files ∧ ∃ m, f.mtime = some m ∧ output_file_mtime_of stat < m)
    ∧ (stat = none → ∀ m, f.mtime = some m → 0 < m → f ∈ files →
        f ∈ newer_haskell_files files (output_file_mtime_of stat)) := by
  have hmem : f ∈ newer_haskell_files files (output_file_mtime_of stat) ↔
      f ∈ files ∧ ∃ m, f.mtime = some m ∧ output_file_mtime_of stat < m := by
    rw [newer_haskell_files, List.mem_filter]
    constructor
    · rintro ⟨h1, h2⟩
      refine ⟨h1, ?_⟩
      cases hm : f.mtime with
      | none => rw [hm] at h2; simp at h2
      | some m =>
          rw [hm] at h2
          exact ⟨m, rfl, by simpa using h2⟩
    · rintro ⟨h1, m, hm, hlt⟩
      refine ⟨h1, ?_⟩
      rw [hm]
      simpa using hlt
  refine ⟨hmem, ?_⟩
  intro hstat m hm hpos hf
  rw [hmem]
  refine ⟨hf, m, hm, ?_⟩
  rw [hstat]
  simpa [output_file_mtime_of] using hpos

/-- Witness for C2 (amended): with no report, a discovered file with
modification time 1 is reported as changed. -/
theorem change_detection_filter_spec_check :
    HaskellFile.mk libPathText (some 1) ∈
      newer_haskell_files [HaskellFile.mk libPathText (some 1)]
        (output_file_mtime_of none) := by
  exact (change_detection_filter_spec [HaskellFile.mk libPathText (some 1)]
    none (HaskellFile.mk libPathText (some 1))).2 rfl 1 rfl
    (by norm_num) (by simp)

/-- C8 fails as stated: a permission-denied outcome of the no-op signal
is not treated as alive — the probe reports the process dead, and the
registry with a well-formed PID file whose pid probes permission-denied
spawns a duplicate instead of returning early. -/
theorem permission_denied_not_alive_cex :
    is_process_running KillResult.permissionDenied ≠ true
    ∧ start_ghcid_if_needed ⟨PidFileRead.content pidTextSample,
        fun _ => KillResult.permissionDenied, 999⟩
      = RegistryResult.started 999 := by
  constructor
  · decide
  · decide

/-- C8 (amended): the liveness probe reports the process alive exactly
when the no-op signal succeeds; every failure — permission-denied
included — yields not alive, so a parsable PID file whose pid probes
permission-denied leads to a fresh spawn that persists the new pid. -/
theorem liveness_probe_spec :
    (∀ r : KillResult, is_process_running r = true ↔ r = KillResult.ok)
    ∧ (∀ (text : List Char) (pid newPid : ℤ) (kill : ℤ → KillResult),
        pyIntParse text = some pid →
        kill pid = KillResult.permissionDenied →
        start_ghcid_if_needed ⟨PidFileRead.content text, kill, newPid⟩
          = RegistryResult.started newPid) := by
  constructor
  · intro r
    cases r <;> simp [is_process_running]
  · intro text pid newPid kill hparse hkill
    rw [start_ghcid_if_needed]
    dsimp only
    rw [hparse]
    dsimp only
    rw [hkill]
    rfl

/-- Witness for C8 (amended): the PID file reads `123` and the probe of
pid 123 is permission-denied; the registry spawns and persists pid 7. -/
theorem liveness_probe_spec_check :
    start_ghcid_if_needed ⟨PidFileRead.content pidTextSample,
      fun _ => KillResult.permissionDenied, 7⟩ = RegistryResult.started 7 := by
  exact liveness_probe_spec.2 pidTextSample 123 7
    (fun _ => KillResult.permissionDenied) (by decide) rfl

/-- C9: a PID file whose content does not parse as an integer, or which
cannot be read at all, is treated as no running process: the registry
falls through to the spawn and persists the fresh pid, and the run
continues (the parse and read errors are caught, not propagated). -/
theorem malformed_pid_recovery (text : List Char) (kill : ℤ → KillResult)
    (newPid : ℤ) (hparse : pyIntParse text = none) :
    start_ghcid_if_needed ⟨PidFileRead.content text, kill, newPid⟩
      = RegistryResult.started newPid
    ∧ start_ghcid_if_needed ⟨PidFileRead.unreadable, kill, newPid⟩
      = RegistryResult.started newPid := by
  constructor
  · rw [start_ghcid_if_needed]
    dsimp only
    rw [hparse]
  · rfl

/-- Witness for C9: the PID file reads `ghcid`, which does not parse as
an integer; the registry spawns and persists pid 42. -/
theorem malformed_pid_recovery_check :
    start_ghcid_if_needed ⟨PidFileRead.content ghcidText,
      fun _ => KillResult.ok, 42⟩ = RegistryResult.started 42 := by
  exact (malformed_pid_recovery ghcidText (fun _ => KillResult.ok) 42
    (by decide)).1

end GhcidFeedback
